import Mathlib

/-!
Verification of the core of "The Last Try", a reflected-XSS scanner.

The development shallowly embeds the scanner's pure logic:

* `core/utils.py`  — reflection matching (`payload_reflected`) and the
  structured result sink (`save_results`, `.json` branch);
* `core/waf.py`    — the WAF heuristic (`detect`), the mutation families and
  `generate_bypass_payloads`, and the serial bypass loop (`run_bypass`);
* `core/engine.py` — the single-attempt pipeline (`test_payload`).

Python strings are modelled as lists of unicode scalar values (`List Char`).
Library helpers the source calls (`str.replace`, the `in` operator,
`urllib.parse.unquote`, `html.unescape`, `urllib.parse.quote`, `html.escape`,
`json.dumps`) are given executable ASCII-level models below; each model notes
where it simplifies (multi-byte UTF-8 percent sequences, the full HTML5 entity
table).  No claim in this development depends on those corners.
-/

namespace TheLastTry

/-- Python strings, modelled as lists of unicode scalar values. -/
abbrev Str := List Char

/-- View a Lean string literal as a model string. -/
def str (s : String) : Str := s.data

/-- Python's substring operator `needle in hay`. -/
def strContains (hay needle : Str) : Bool :=
  match hay with
  | [] => needle.isEmpty
  | c :: t => needle.isPrefixOf (c :: t) || strContains t needle

/-- Python `str.lower`, restricted to the ASCII range (all strings the
    claims touch are ASCII; unicode case folding is out of model). -/
def pyLower (s : Str) : Str := s.map Char.toLower

/-- Worker for `pyReplace`.  The fuel starts at the subject's length and
    bounds the recursion; every step consumes at least one character, so the
    fuel never runs out on the initial call. -/
def replaceFuel (pat rep : Str) : Nat → Str → Str
  | _, [] => []
  | 0, s => s
  | fuel + 1, c :: t =>
    if !pat.isEmpty && pat.isPrefixOf (c :: t) then
      rep ++ replaceFuel pat rep fuel ((c :: t).drop pat.length)
    else
      c :: replaceFuel pat rep fuel t

/-- Python `s.replace(pat, rep)`: replace every non-overlapping occurrence of
    `pat`, scanning left to right.  For an empty pattern the subject is
    returned unchanged (Python would interleave `rep`; no call site in the
    sources uses an empty pattern). -/
def pyReplace (s pat rep : Str) : Str := replaceFuel pat rep s.length s

/-- Numeric value of one hexadecimal digit, as accepted by percent decoding. -/
def hexVal (c : Char) : Option Nat :=
  if '0' ≤ c ∧ c ≤ '9' then some (c.toNat - '0'.toNat)
  else if 'a' ≤ c ∧ c ≤ 'f' then some (c.toNat - 'a'.toNat + 10)
  else if 'A' ≤ c ∧ c ≤ 'F' then some (c.toNat - 'A'.toNat + 10)
  else none

/-- ASCII-level model of `urllib.parse.unquote`: `%` followed by two hex
    digits decodes to the code point they spell; an invalid escape keeps the
    `%` literally and scanning resumes after it.  (CPython assembles
    multi-byte UTF-8 sequences from consecutive escapes; that refinement is
    out of model and no claim depends on it.) -/
def unquote : Str → Str
  | [] => []
  | '%' :: a :: b :: t2 =>
    (match hexVal a, hexVal b with
     | some x, some y => Char.ofNat (16 * x + y) :: unquote t2
     | _, _ => '%' :: unquote (a :: b :: t2))
  | c :: t => c :: unquote t

/-- Subset model of `html.unescape`: the predefined entities
    `&lt; &gt; &amp; &quot; &#39;` are decoded; the rest of the HTML5 entity
    table and the semicolon-less forms are out of model (no claim depends on
    them). -/
def unescape : Str → Str
  | [] => []
  | '&' :: 'l' :: 't' :: ';' :: t => '<' :: unescape t
  | '&' :: 'g' :: 't' :: ';' :: t => '>' :: unescape t
  | '&' :: 'a' :: 'm' :: 'p' :: ';' :: t => '&' :: unescape t
  | '&' :: 'q' :: 'u' :: 'o' :: 't' :: ';' :: t => '"' :: unescape t
  | '&' :: '#' :: '3' :: '9' :: ';' :: t => Char.ofNat 39 :: unescape t
  | c :: t => c :: unescape t

/-- Characters `urllib.parse.quote` never encodes (its `ALWAYS_SAFE` set). -/
def alwaysSafe (c : Char) : Bool :=
  decide (('a' ≤ c ∧ c ≤ 'z') ∨ ('A' ≤ c ∧ c ≤ 'Z') ∨ ('0' ≤ c ∧ c ≤ '9') ∨
    c = '_' ∨ c = '.' ∨ c = '-' ∨ c = '~')

/-- Upper-case hexadecimal digit for a value below 16. -/
def hexDigitU (n : Nat) : Char :=
  if n < 10 then Char.ofNat ('0'.toNat + n) else Char.ofNat ('A'.toNat + n - 10)

/-- Two upper-case hex digits of a byte value. -/
def toHex2 (n : Nat) : Str := [hexDigitU (n / 16 % 16), hexDigitU (n % 16)]

/-- ASCII-level model of `urllib.parse.quote(s, safe="")`: safe characters
    pass through, everything else becomes `%XX` of its code point (CPython
    percent-encodes the UTF-8 bytes of non-ASCII characters instead; out of
    model, no claim depends on it). -/
def pyQuote (s : Str) : Str :=
  s.flatMap fun c => if alwaysSafe c then [c] else '%' :: toHex2 c.toNat

/-- Model of `html.escape(s)` with its default `quote=True`: the five
    markup-significant characters become entities.  CPython applies five
    sequential `str.replace` passes whose net effect is exactly this
    character-wise map (the `&` pass runs first, so entity text introduced by
    later passes is never re-escaped). -/
def pyEscape (s : Str) : Str :=
  s.flatMap fun c =>
    if c = '&' then str "&amp;"
    else if c = '<' then str "&lt;"
    else if c = '>' then str "&gt;"
    else if c = '"' then str "&quot;"
    else if c = Char.ofNat 39 then str "&#x27;"
    else [c]

/-! ## `core/utils.py` — reflection matching -/

/-- Model of `_reflection_candidates` from `core/utils.py`: the five decoded forms of
    the payload (raw; percent-decode; double percent-decode; entity-unescape;
    unescape-then-percent-decode).  The source builds a Python `set` of these
    five expressions; since `payload_reflected` only tests each member, the
    list of the five expressions is an equivalent model. -/
def reflection_candidates (payload : Str) : List Str :=
  [payload, unquote payload, unquote (unquote payload),
   unescape payload, unescape (unquote payload)]

/-- The three body forms `payload_reflected` compares against (raw;
    entity-unescaped; percent-decoded), again a `set` in the source. -/
def body_forms (html : Str) : List Str :=
  [html, unescape html, unquote html]

/-- The candidate loop of `payload_reflected`: empty candidates are skipped
    (`if not candidate: continue`), and the inner loop over body forms
    returns at the first substring hit. -/
def reflectedLoop (bodies : List Str) : List Str → Bool
  | [] => false
  | cand :: rest =>
    if cand = [] then reflectedLoop bodies rest
    else if bodies.any (fun b => strContains b cand) then true
    else reflectedLoop bodies rest

/-- Model of `payload_reflected` from `core/utils.py`. -/
def payload_reflected (payload html : Str) : Bool :=
  if html = [] then false
  else reflectedLoop (body_forms html) (reflection_candidates payload)

/-! ## `core/waf.py` — WAF heuristic and bypass generation -/

/-- The filter-indicative status set, shared verbatim by
    `engine.test_payload` and `WAFDetector.detect`. -/
def BLOCKED_STATUSES : List Nat := [401, 403, 406, 409, 418, 429, 451, 500, 503]

/-- The constant `WAFDetector.SECURITY_HEADERS`. -/
def SECURITY_HEADERS : List Str :=
  [str "x-sucuri-id", str "x-sucuri-cache", str "x-firewall", str "cf-ray",
   str "x-cdn", str "x-waf", str "x-akamai", str "x-ddos-protection",
   str "x-imperva-id", str "x-mod-security", str "server"]

/-- The constant `WAFDetector.SECURITY_BODY_PATTERNS`. -/
def SECURITY_BODY_PATTERNS : List Str :=
  [str "access denied", str "request blocked", str "forbidden", str "malicious",
   str "web application firewall", str "incident id", str "security rule",
   str "attack detected", str "threat detected", str "virus detected",
   str "bot detected", str "automated query", str "captcha", str "mod_security",
   str "cloudflare", str "imperva"]

/-- One entry of the engine's response log (the dict built in
    `engine.test_payload`): payload, url, status code, header map
    (case-preserving keys), body text, bypass flag. -/
structure ResponseRecord where
  payload : Str
  url : Str
  status_code : Nat
  headers : List (Str × Str)
  body : Str
  bypass_mode : Bool
deriving DecidableEq

/-- Does the record's status code sit in the blocked-status set? -/
def statusBlocked (entry : ResponseRecord) : Bool :=
  BLOCKED_STATUSES.contains entry.status_code

/-- Does the record's lower-cased body contain a filter-indicative keyword? -/
def bodyHasPattern (entry : ResponseRecord) : Bool :=
  SECURITY_BODY_PATTERNS.any fun pat => strContains (pyLower entry.body) pat

/-- Does the record's header-key set (lower-cased) meet the fixed
    security-header list? -/
def headerHit (entry : ResponseRecord) : Bool :=
  SECURITY_HEADERS.any fun key =>
    entry.headers.any fun kv => pyLower kv.1 == key

/-- Model of `WAFDetector.detect`, as the loop in the source: one pass over the log
    accumulating `(blocked_signals, security_header_hits)`.  A record whose
    status is blocked *and* whose body holds a keyword contributes two
    blocked signals, as in the source.  The verdict threshold
    `int(total * 0.2)` is modelled as `total / 5`, the exact floor the
    float truncation computes. -/
def detectStep (acc : Nat × Nat) (entry : ResponseRecord) : Nat × Nat :=
  let acc1 := if statusBlocked entry then (acc.1 + 1, acc.2) else acc
  let acc2 := if headerHit entry then (acc1.1, acc1.2 + 1) else acc1
  if bodyHasPattern entry then (acc2.1 + 1, acc2.2) else acc2

def detect (log : List ResponseRecord) : Bool :=
  let total := max log.length 1
  let acc := log.foldl detectStep (0, 0)
  decide (acc.1 ≥ max 3 (total / 5)) || decide (acc.2 > 0)

/-- The spec's `blocked_signals`: records with a blocked status plus records
    whose lower-cased body holds a filter keyword. -/
def blocked_signals (log : List ResponseRecord) : Nat :=
  log.countP statusBlocked + log.countP bodyHasPattern

/-- The spec's `header_hits`: records whose header names meet the fixed
    security-header list. -/
def header_hits (log : List ResponseRecord) : Nat :=
  log.countP headerHit

/-- Model of `WAFDetector._case_mutation`. -/
def case_mutation (payload : Str) : List Str :=
  let variants := [payload]
  if strContains (pyLower payload) (str "script") then
    variants ++
      [pyReplace payload (str "script") (str "Script"),
       pyReplace payload (str "script") (str "sCrIpT"),
       pyReplace payload (str "script") (str "SCRipt")]
  else variants

/-- Model of `WAFDetector._encoding_mutation`. -/
def encoding_mutation (payload : Str) : List Str :=
  [pyQuote payload,
   pyQuote (pyQuote payload),
   pyEscape payload,
   pyReplace (pyReplace payload (str "<") (str "%3c")) (str ">") (str "%3e"),
   pyReplace (pyReplace payload (str "<") (str "&lt;")) (str ">") (str "&gt;")]

/-- Model of `WAFDetector._fragmentation_mutation`.  The second entry replaces
    `alert` with `"al" + "ert"`, which is the identical token. -/
def fragmentation_mutation (payload : Str) : List Str :=
  [pyReplace payload (str "<script") (str "<scr<script>ipt"),
   pyReplace payload (str "alert") (str "alert"),
   pyReplace payload (str "onerror") (str "oneonerrorrror"),
   payload ++ str "<!--waf-bypass-->",
   payload ++ str "/*x*/",
   payload ++ str "aaa"]

/-- Model of `WAFDetector._handler_mutation`. -/
def handler_mutation (payload : Str) : List Str :=
  [(str "onerror", str "onload"), (str "onerror", str "onmouseover"),
   (str "alert", str "confirm"), (str "alert", str "prompt")].foldl
    (fun acc st =>
      if strContains payload st.1 then acc ++ [pyReplace payload st.1 st.2] else acc)
    []

/-- Model of `WAFDetector._prefix_suffix_mutation`. -/
def prefix_suffix_mutation (payload : Str) : List Str :=
  [str "\"" ++ payload,
   str "\x27" ++ payload,
   str "\">" ++ payload,
   str "-->" ++ payload,
   str "</title>" ++ payload,
   str "</textarea>" ++ payload,
   str "</style>" ++ payload]

/-- Model of `WAFDetector.generate_bypass_payloads`.  Two effects of the environment
    are parameters: `lib` is the static corpus `_load_bypass_library()` reads
    from `data/bypass_payloads.txt` (the data file is not part of the sources;
    only the filter downstream constrains it), and `shuffle` stands for
    `random.shuffle`, whose output is a permutation of its input determined by
    the hidden RNG state.  The Python `set` union plus the final `list(...)`
    is modelled as filter-then-dedup; any fixed order is faithful because the
    result is immediately shuffled. -/
def bypass_variants (lib : List Str) (original_payload : Str) : List Str :=
  let groups :=
    [case_mutation original_payload,
     encoding_mutation original_payload,
     fragmentation_mutation original_payload,
     handler_mutation original_payload,
     prefix_suffix_mutation original_payload,
     lib]
  (groups.flatten.filter fun item => decide (item ≠ [] ∧ item.length < 2500)).dedup

def generate_bypass_payloads (lib : List Str) (shuffle : List Str → List Str)
    (original_payload : Str) : List Str :=
  shuffle (bypass_variants lib original_payload)

/-! ## `core/engine.py` — the single-attempt pipeline -/

/-- An HTTP response as `test_payload` consumes it: status code, headers,
    body text, and the length of the redirect history. -/
structure Response where
  status_code : Nat
  headers : List (Str × Str)
  text : Str
  history_length : Nat
deriving DecidableEq

/-- What `BrowserConfirmer.confirm_xss` reports when it returns a capture. -/
structure Dialog where
  confirmed : Bool
  dialog_type : Str
  dialog_text : Str
deriving DecidableEq

/-- The result dict `test_payload` returns: the full confirmation record on
    success, or `confirmed = False` with only payload and url set (the
    unconfirmed dict carries no dialog fields; they are modelled empty, and
    nothing downstream reads them). -/
structure ResultEntry where
  url : Str
  payload : Str
  dialog_type : Str
  dialog_text : Str
  timestamp : Str
  confirmed : Bool
deriving DecidableEq

/-- The engine's shared scan state: confirmed results, response log, blocked
    set (a Python `set[str]`, modelled as a duplicate-free insertion list). -/
structure ScanState where
  results : List ResultEntry
  response_log : List ResponseRecord
  blocked_payloads : List Str
deriving DecidableEq

/-- Python `set.add` on the blocked set: idempotent insertion. -/
def insertBlocked (l : List Str) (p : Str) : List Str :=
  if p ∈ l then l else l ++ [p]

/-- The environment one `test_payload` call observes: the URL template, the
    response `_make_request` produced for this attempt (`none` = network
    failure), the browser oracle as a function of the visited URL, the
    current UTC timestamp string, and the stop event (modelled as stable
    across the attempt; the claims under proof do not involve mid-attempt
    cancellation). -/
structure AttemptEnv where
  target_url : Str
  response : Option Response
  oracle : Str → Option Dialog
  now : Str
  stopped : Bool

/-- The `HERE` marker substituted in the URL template. -/
def HERE : Str := str "HERE"

/-- Model of `Engine._normalize_redirect_depth`: at most 3 redirect hops. -/
def normalize_redirect_depth (response : Response) : Bool :=
  response.history_length ≤ 3

/-- Model of `Engine.test_payload`, as state transformer plus returned result.  The
    user-agent choice and the human delay only affect timing and are not
    modelled; the per-thread session is behind `env.response`. -/
def test_payload (env : AttemptEnv) (st : ScanState) (payload : Str)
    (bypass_mode : Bool) : ScanState × Option ResultEntry :=
  if env.stopped then (st, none) else
  let target := pyReplace env.target_url HERE payload
  -- human_delay happens here; the stop event is re-checked after it
  if env.stopped then (st, none) else
  match env.response with
  | none => (st, none)
  | some response =>
    if ¬ normalize_redirect_depth response then (st, none)
    else
      let entry : ResponseRecord :=
        { payload := payload, url := target, status_code := response.status_code,
          headers := response.headers, body := response.text,
          bypass_mode := bypass_mode }
      let st1 := { st with response_log := st.response_log ++ [entry] }
      if BLOCKED_STATUSES.contains response.status_code then
        ({ st1 with blocked_payloads := insertBlocked st1.blocked_payloads payload },
         none)
      else if ¬ payload_reflected payload response.text then (st1, none)
      else if env.stopped then (st1, none)
      else
        match env.oracle target with
        | some dialog =>
          if dialog.confirmed then
            let r : ResultEntry :=
              { url := target, payload := payload,
                dialog_type := dialog.dialog_type,
                dialog_text := dialog.dialog_text,
                timestamp := env.now, confirmed := true }
            ({ st1 with results := st1.results ++ [r] }, some r)
          else
            (st1, some { url := target, payload := payload, dialog_type := [],
                         dialog_text := [], timestamp := [], confirmed := false })
        | none =>
          (st1, some { url := target, payload := payload, dialog_type := [],
                       dialog_text := [], timestamp := [], confirmed := false })

/-- Observable events of one `test_payload` attempt, in program order. -/
inductive ScanEvent where
  | appendRecord (r : ResponseRecord)
  | classifyBlocked (payload : Str)
  | reflectionTest (payload : Str) (reflected : Bool)
  | oracleQuery (url : Str)
  | appendResult (r : ResultEntry)
deriving DecidableEq

/-- Events that classify the attempt (blocked-status classification or the
    reflection test). -/
def isClassification : ScanEvent → Bool
  | .classifyBlocked _ => true
  | .reflectionTest _ _ => true
  | _ => false

/-- The event trace of one `test_payload` attempt, following the same control
    flow as `test_payload`: the log append happens on every path that reaches
    line 124 of `engine.py`, before the status classification and the
    reflection test. -/
def attempt_trace (env : AttemptEnv) (payload : Str) (bypass_mode : Bool) :
    List ScanEvent :=
  if env.stopped then [] else
  let target := pyReplace env.target_url HERE payload
  if env.stopped then [] else
  match env.response with
  | none => []
  | some response =>
    if ¬ normalize_redirect_depth response then []
    else
      let entry : ResponseRecord :=
        { payload := payload, url := target, status_code := response.status_code,
          headers := response.headers, body := response.text,
          bypass_mode := bypass_mode }
      ScanEvent.appendRecord entry ::
        (if BLOCKED_STATUSES.contains response.status_code then
          [ScanEvent.classifyBlocked payload]
        else
          ScanEvent.reflectionTest payload (payload_reflected payload response.text) ::
            (if ¬ payload_reflected payload response.text then []
             else if env.stopped then []
             else ScanEvent.oracleQuery target ::
               (match env.oracle target with
                | some dialog =>
                  if dialog.confirmed then
                    [ScanEvent.appendResult
                      { url := target, payload := payload,
                        dialog_type := dialog.dialog_type,
                        dialog_text := dialog.dialog_text,
                        timestamp := env.now, confirmed := true }]
                  else []
                | none => [])))

/-! ## `core/waf.py` — the serial bypass loop -/

/-- Run-wide counters `run_bypass` returns. -/
structure BypassStats where
  blocked_payloads : Nat
  total_variants_generated : Nat
  total_attempts_run : Nat
  confirmed : Nat
deriving DecidableEq

/-- The collaborators `run_bypass` drives: the mutation generator and the
    pipeline `engine.test_payload` (abstracted as a transformer of the
    engine state `σ`, returning the optional result dict). -/
structure BypassEnv (σ : Type) where
  gen : Str → List Str
  test : σ → Str → σ × Option ResultEntry

/-- Python `if result and result.get("confirmed")` on a `test_payload` result. -/
def isConfirmedResult : Option ResultEntry → Bool
  | some r => r.confirmed
  | none => false

/-- Outcome of the inner variant loop for one base payload. -/
structure VariantRun (σ : Type) where
  state : σ
  attempts : Nat
  outcome : Option ResultEntry
  calls : List Str

/-- The inner loop of `run_bypass`: try the variants of one base payload in
    order, breaking at the first confirmed result.  `attempts` mirrors the
    `total_attempts += 1` increments, and `calls` records the candidate of
    every `test_payload` invocation actually executed, in order. -/
def tryVariants (env : BypassEnv σ) : σ → List Str → VariantRun σ
  | s, [] => ⟨s, 0, none, []⟩
  | s, c :: rest =>
    let step := env.test s c
    if isConfirmedResult step.2 then ⟨step.1, 1, step.2, [c]⟩
    else
      let next := tryVariants env step.1 rest
      ⟨next.state, next.attempts + 1, next.outcome, c :: next.calls⟩

/-- What `run_bypass` returns, plus the invocation trace `calls`. -/
structure BypassRun (σ : Type) where
  state : σ
  confirmations : List ResultEntry
  stats : BypassStats
  calls : List Str

/-- Model of `WAFDetector.run_bypass` over a snapshot `blocked_list` of the blocked
    set: per base payload, generate the corpus and try it serially; the
    status/progress callbacks only print and are not modelled. -/
def run_bypass (env : BypassEnv σ) : σ → List Str → BypassRun σ
  | s, [] => ⟨s, [], ⟨0, 0, 0, 0⟩, []⟩
  | s, payload :: rest =>
    let candidates := env.gen payload
    let run := tryVariants env s candidates
    let next := run_bypass env run.state rest
    ⟨next.state,
     run.outcome.toList ++ next.confirmations,
     ⟨next.stats.blocked_payloads + 1,
      candidates.length + next.stats.total_variants_generated,
      run.attempts + next.stats.total_attempts_run,
      (if run.outcome.isSome then 1 else 0) + next.stats.confirmed⟩,
     run.calls ++ next.calls⟩

/-- Replay only the state effect of a sequence of pipeline invocations. -/
def replay (env : BypassEnv σ) (s : σ) (l : List Str) : σ :=
  l.foldl (fun a c => (env.test a c).1) s

/-! ## `core/utils.py` — the structured result sink (`save_results`, `.json`)

`Engine.run` serializes `clean_results`, a list of dicts with exactly the keys
`url, payload, dialog_type, dialog_text, timestamp` in that insertion order;
`save_results` writes `json.dumps(list(results), indent=2)`.  The writer below
reproduces `json.dumps` for that shape, including its default `ensure_ascii`
escaping (non-ASCII code points become `\uXXXX`, astral ones a surrogate
pair).  The reader is an independent parser for the corresponding JSON
fragment (arrays of flat string-valued objects), used to state the
round-trip. -/

/-- A serialized confirmation record (the `clean_results` dict). -/
structure ConfirmationOut where
  url : Str
  payload : Str
  dialog_type : Str
  dialog_text : Str
  timestamp : Str
deriving DecidableEq

/-- Lower-case hexadecimal digit for a value below 16. -/
def hexDigitL (n : Nat) : Char :=
  if n < 10 then Char.ofNat ('0'.toNat + n) else Char.ofNat ('a'.toNat + n - 10)

/-- Four lower-case hex digits, as Python's `'\\u%04x'` formatting. -/
def toHex4 (n : Nat) : Str :=
  [hexDigitL (n / 4096 % 16), hexDigitL (n / 256 % 16),
   hexDigitL (n / 16 % 16), hexDigitL (n % 16)]

/-- Model of `json.dumps` escaping of one character (the `ensure_ascii=True` path):
    quote and backslash get a backslash escape, the five short control
    escapes apply, printable ASCII passes through, every other code point
    becomes `\uXXXX` (a surrogate pair above `0xFFFF`). -/
def escChar (c : Char) : Str :=
  if c = '"' then ['\\', '"']
  else if c = '\\' then ['\\', '\\']
  else if c.toNat = 8 then ['\\', 'b']
  else if c.toNat = 9 then ['\\', 't']
  else if c.toNat = 10 then ['\\', 'n']
  else if c.toNat = 12 then ['\\', 'f']
  else if c.toNat = 13 then ['\\', 'r']
  else if 0x20 ≤ c.toNat ∧ c.toNat ≤ 0x7e then [c]
  else if c.toNat < 0x10000 then '\\' :: 'u' :: toHex4 c.toNat
  else
    ('\\' :: 'u' :: toHex4 (0xd800 + (c.toNat - 0x10000) / 0x400)) ++
    ('\\' :: 'u' :: toHex4 (0xdc00 + (c.toNat - 0x10000) % 0x400))

/-- A JSON string literal: quoted, characters escaped. -/
def dumpStr (s : Str) : Str := '"' :: (s.flatMap escChar ++ ['"'])

/-- One object of the array, as `json.dumps(..., indent=2)` lays it out at
    nesting depth one (keys indented four spaces, closing brace two). -/
def dumpRecord (r : ConfirmationOut) : Str :=
  str "\x7b\n    " ++ dumpStr (str "url") ++ str ": " ++ dumpStr r.url ++
  str ",\n    " ++ dumpStr (str "payload") ++ str ": " ++ dumpStr r.payload ++
  str ",\n    " ++ dumpStr (str "dialog_type") ++ str ": " ++ dumpStr r.dialog_type ++
  str ",\n    " ++ dumpStr (str "dialog_text") ++ str ": " ++ dumpStr r.dialog_text ++
  str ",\n    " ++ dumpStr (str "timestamp") ++ str ": " ++ dumpStr r.timestamp ++
  str "\n  \x7d"

/-- The separator `json.dumps(..., indent=2)` writes between array items:
    a comma, a newline, the depth-one indent. -/
def joinRecords : List ConfirmationOut → Str
  | [] => []
  | [r] => dumpRecord r
  | r :: r2 :: rest => dumpRecord r ++ str ",\n  " ++ joinRecords (r2 :: rest)

/-- The `.json` branch of `save_results`: the exact text
    `json.dumps(list(results), indent=2)` writes to the output file. -/
def save_results_json (results : List ConfirmationOut) : Str :=
  if results = [] then str "[]"
  else str "[\n  " ++ joinRecords results ++ str "\n]"

/-- JSON insignificant whitespace. -/
def isJsonWs (c : Char) : Bool := c == ' ' || c == '\n' || c == '\t' || c == '\r'

/-- Drop leading JSON whitespace. -/
def skipWs : Str → Str
  | [] => []
  | c :: t => if isJsonWs c then skipWs t else c :: t

/-- Prepend a character to the first component of a parse result. -/
def consFst (c : Char) : Option (Str × Str) → Option (Str × Str)
  | some (s, rest) => some (c :: s, rest)
  | none => none

/-- Value of four hex digits. -/
def hex4 (a b c d : Char) : Option Nat :=
  match hexVal a, hexVal b, hexVal c, hexVal d with
  | some x, some y, some z, some w => some (((x * 16 + y) * 16 + z) * 16 + w)
  | _, _, _, _ => none

/-- Decode the low half of a surrogate escape pair: expects `\uXXXX` with a
    low surrogate value and combines it with the high half `n`. -/
def parseEscLow (n : Nat) : Str → Option (Char × Str)
  | b1 :: u1 :: g1 :: g2 :: g3 :: g4 :: t =>
    if b1 = '\\' ∧ u1 = 'u' then
      match hex4 g1 g2 g3 g4 with
      | none => none
      | some m =>
        if 0xdc00 ≤ m ∧ m ≤ 0xdfff then
          some (Char.ofNat (0x10000 + (n - 0xd800) * 0x400 + (m - 0xdc00)), t)
        else none
    else none
  | _ => none

/-- Decode a `\u` escape: four hex digits, plus a second surrogate escape when
    the value is a high surrogate.  Unpaired surrogates are rejected (the
    writer never produces them). -/
def parseEscU : Str → Option (Char × Str)
  | h1 :: h2 :: h3 :: h4 :: t =>
    (match hex4 h1 h2 h3 h4 with
     | none => none
     | some n =>
       if 0xd800 ≤ n ∧ n ≤ 0xdbff then parseEscLow n t
       else if 0xdc00 ≤ n ∧ n ≤ 0xdfff then none
       else some (Char.ofNat n, t))
  | _ => none

/-- Decode one backslash escape (the input starts after the backslash);
    returns the decoded character and the remaining input. -/
def parseEsc : Str → Option (Char × Str)
  | [] => none
  | e :: t =>
    if e = '"' then some ('"', t)
    else if e = '\\' then some ('\\', t)
    else if e = '/' then some ('/', t)
    else if e = 'b' then some (Char.ofNat 8, t)
    else if e = 't' then some (Char.ofNat 9, t)
    else if e = 'n' then some (Char.ofNat 10, t)
    else if e = 'f' then some (Char.ofNat 12, t)
    else if e = 'r' then some (Char.ofNat 13, t)
    else if e = 'u' then parseEscU t
    else none

/-- Fuel-driven worker for the string-body parser: consume characters and
    escapes until the closing quote.  Every step consumes at least one input
    character, so fuel equal to the input length never runs out. -/
def parseStringBodyF : Nat → Str → Option (Str × Str)
  | 0, _ => none
  | _ + 1, [] => none
  | fuel + 1, c :: t =>
    if c = '"' then some ([], t)
    else if c = '\\' then
      match parseEsc t with
      | none => none
      | some dt => consFst dt.1 (parseStringBodyF fuel dt.2)
    else consFst c (parseStringBodyF fuel t)

/-- Parse a JSON string body up to its closing quote, decoding escapes;
    returns the decoded text and the remaining input. -/
def parseStringBody (s : Str) : Option (Str × Str) := parseStringBodyF s.length s

/-- Parse a quoted JSON string. -/
def parseQuoted : Str → Option (Str × Str)
  | [] => none
  | c :: t => if c = '"' then parseStringBody t else none

/-- Demand one specific character. -/
def expectChar (c : Char) : Str → Option Str
  | [] => none
  | d :: t => if d = c then some t else none

/-- Parse one `"name": "value"` member whose key must be `name`. -/
def parseField (name : Str) (s : Str) : Option (Str × Str) := do
  let kv ← parseQuoted (skipWs s)
  if kv.1 = name then
    let s2 ← expectChar ':' (skipWs kv.2)
    parseQuoted (skipWs s2)
  else none

/-- Parse one confirmation object. -/
def parseRecord (s : Str) : Option (ConfirmationOut × Str) := do
  let s0 ← expectChar (Char.ofNat 123) (skipWs s)
  let f1 ← parseField (str "url") s0
  let s1 ← expectChar ',' (skipWs f1.2)
  let f2 ← parseField (str "payload") s1
  let s2 ← expectChar ',' (skipWs f2.2)
  let f3 ← parseField (str "dialog_type") s2
  let s3 ← expectChar ',' (skipWs f3.2)
  let f4 ← parseField (str "dialog_text") s3
  let s4 ← expectChar ',' (skipWs f4.2)
  let f5 ← parseField (str "timestamp") s4
  let s5 ← expectChar (Char.ofNat 125) (skipWs f5.2)
  some (⟨f1.1, f2.1, f3.1, f4.1, f5.1⟩, s5)

/-- Parse the non-empty item list of the array, including the closing
    bracket.  The fuel bounds the number of items; callers pass more fuel
    than the input length, which suffices since every item consumes input. -/
def parseItems (fuel : Nat) (s : Str) : Option (List ConfirmationOut × Str) :=
  match fuel with
  | 0 => none
  | fuel + 1 => do
    let rs ← parseRecord s
    match skipWs rs.2 with
    | c :: t =>
      if c = ',' then do
        let more ← parseItems fuel t
        some (rs.1 :: more.1, more.2)
      else if c = ']' then some ([rs.1], t)
      else none
    | [] => none

/-- Parse a whole results file: a JSON array of confirmation objects with
    nothing but whitespace after it. -/
def parseResults (s : Str) : Option (List ConfirmationOut) := do
  let s0 ← expectChar '[' (skipWs s)
  match skipWs s0 with
  | c :: t =>
    if c = ']' then
      if (skipWs t).isEmpty then some [] else none
    else do
      let out ← parseItems (s.length + 1) (c :: t)
      if (skipWs out.2).isEmpty then some out.1 else none
  | [] => none

/-! ## Lemmas about the string model -/

/-- The test `strContains hay needle` decides the substring relation. -/
theorem strContains_iff (hay needle : Str) :
    strContains hay needle = true ↔ needle <:+: hay := by
  induction hay with
  | nil =>
    simp only [strContains, List.isEmpty_iff, List.infix_nil]
  | cons c t ih =>
    rw [strContains]
    simp [ih, List.infix_cons_iff]

/-- The candidate loop of `payload_reflected` decides the spec's existential:
    some non-empty candidate form is a substring of some body form. -/
theorem reflectedLoop_iff (bodies cands : List Str) :
    reflectedLoop bodies cands = true ↔
      ∃ cand ∈ cands, cand ≠ [] ∧ ∃ b ∈ bodies, cand <:+: b := by
  induction cands with
  | nil => simp [reflectedLoop]
  | cons cand rest ih =>
    by_cases hc : cand = []
    · subst hc
      simp [reflectedLoop, ih]
    · rw [reflectedLoop]
      rw [if_neg hc]
      by_cases hb : bodies.any (fun b => strContains b cand) = true
      · rw [if_pos hb]
        simp only [List.any_eq_true, strContains_iff] at hb
        obtain ⟨b, hbmem, hbin⟩ := hb
        simp only [true_iff]
        exact ⟨cand, List.mem_cons_self _ _, hc, b, hbmem, hbin⟩
      · rw [if_neg hb]
        simp only [List.any_eq_true, strContains_iff] at hb
        push_neg at hb
        rw [ih]
        constructor
        · rintro ⟨c, hmem, hne, b, hb2, hin⟩
          exact ⟨c, List.mem_cons_of_mem _ hmem, hne, b, hb2, hin⟩
        · rintro ⟨c, hmem, hne, b, hb2, hin⟩
          rcases List.mem_cons.mp hmem with rfl | hmem2
          · exact absurd hin (hb b hb2)
          · exact ⟨c, hmem2, hne, b, hb2, hin⟩

/-! ## Claims C2 and C3 -/

/-- C2 (amended): `payload_reflected(payload, body)` returns true iff the body
    is non-empty and at least one **non-empty** candidate among the five
    payload forms is an exact substring of one of the three body forms; empty
    candidates are skipped by the loop.  The second conjunct is the spec's
    verbatim example. -/
theorem payload_reflected_characterization :
    (∀ p h, payload_reflected p h = true ↔
      (h ≠ [] ∧ ∃ cand ∈ reflection_candidates p, cand ≠ [] ∧
        ∃ b ∈ body_forms h, cand <:+: b)) ∧
    payload_reflected (str "<script>alert(1)</script>")
      (str "zz<script>alert(1)</script>yy") = true := by
  constructor
  · intro p h
    unfold payload_reflected
    by_cases hh : h = []
    · simp [hh]
    · simp only [hh, if_neg hh, ne_eq, not_false_iff, true_and]
      exact reflectedLoop_iff _ _
  · decide

/-- C2 counterexample: for the empty payload every one of the five candidate
    forms is the empty string, which **is** an exact substring of the body
    form `"x"`, yet `payload_reflected` returns false (the loop skips empty
    candidates) — so the claimed iff fails as stated. -/
theorem payload_reflected_empty_payload_counterexample :
    payload_reflected [] (str "x") = false ∧
    ∃ cand ∈ reflection_candidates [], ∃ b ∈ body_forms (str "x"), cand <:+: b := by
  refine ⟨by decide, [], by decide, str "x", by decide, List.nil_infix⟩

/-- The detect loop accumulates exactly the two counts of the spec. -/
theorem detectStep_foldl (log : List ResponseRecord) :
    ∀ a b : Nat, log.foldl detectStep (a, b) =
      (a + blocked_signals log, b + header_hits log) := by
  induction log with
  | nil => intro a b; simp [blocked_signals, header_hits]
  | cons e rest ih =>
    intro a b
    have hstep : ∀ x y : Nat, detectStep (x, y) e =
        (x + (if statusBlocked e then 1 else 0) + (if bodyHasPattern e then 1 else 0),
         y + (if headerHit e then 1 else 0)) := by
      intro x y
      cases hs : statusBlocked e <;> cases hh : headerHit e <;>
        cases hp : bodyHasPattern e <;> simp [detectStep, hs, hh, hp]
    rw [List.foldl_cons, hstep, ih]
    unfold blocked_signals header_hits
    simp only [List.countP_cons]
    refine Prod.ext ?_ ?_ <;> simp <;> omega

/-- The 10-record sample log of the claim: `k` blocked-status records and
    `10 - k` benign ones, with empty headers and bodies (so no header or
    body keyword hits anywhere). -/
def sampleLog (k : Nat) : List ResponseRecord :=
  List.replicate k ⟨[], [], 403, [], [], false⟩ ++
    List.replicate (10 - k) ⟨[], [], 200, [], [], false⟩

/-- C3: `detect()` returns true iff
    `blocked_signals ≥ max(3, ⌊0.2·total⌋)` or `header_hits > 0`, where the
    two counters are the record counts of the spec; and over a 10-record log
    with exactly 2 blocked-status entries (no header/body hits) it returns
    false, while with exactly 3 such entries it returns true. -/
theorem detect_characterization :
    (∀ log, detect log =
      (decide (blocked_signals log ≥ max 3 (max log.length 1 / 5)) ||
       decide (header_hits log > 0))) ∧
    detect (sampleLog 2) = false ∧ detect (sampleLog 3) = true := by
  refine ⟨?_, by decide, by decide⟩
  intro log
  unfold detect
  rw [detectStep_foldl log 0 0]
  simp

/-! ## Claims C4, C1, C8 — the attempt pipeline -/

/-- C4: an attempt whose response came through more than 3 redirect hops
    terminates as skipped with the scan state untouched — no ResponseRecord
    is appended, the payload is not added to the blocked set, and no
    confirmation is produced, whatever the response body contains. -/
theorem redirect_limit_skips (env : AttemptEnv) (st : ScanState) (p : Str)
    (bm : Bool) (resp : Response) (hresp : env.response = some resp)
    (hdepth : 4 ≤ resp.history_length) :
    test_payload env st p bm = (st, none) := by
  have hnorm : normalize_redirect_depth resp = false := by
    simp only [normalize_redirect_depth, decide_eq_false_iff_not]
    omega
  unfold test_payload
  rw [hresp]
  cases hs : env.stopped <;> simp [hs, hnorm]

/-- Concrete instance for `redirect_limit_skips`: a 4-hop response whose body
    contains the payload verbatim and whose oracle would confirm is still
    skipped without touching the state. -/
def envRedirect : AttemptEnv :=
  { target_url := str "http://t/?q=HERE",
    response := some ⟨200, [], str "x", 4⟩,
    oracle := fun _ => some ⟨true, str "alert", str "1"⟩,
    now := str "2026-01-01T00:00:00Z",
    stopped := false }

theorem redirect_limit_skips_witness :
    test_payload envRedirect ⟨[], [], []⟩ (str "x") false = (⟨[], [], []⟩, none) ∧
    strContains (str "x") (str "x") = true :=
  ⟨redirect_limit_skips envRedirect ⟨[], [], []⟩ (str "x") false
      ⟨200, [], str "x", 4⟩ rfl (by decide),
   by decide⟩

/-- C1: a confirmation is appended to the results list only if the payload
    was reflected in this attempt's response body and the browser oracle
    reported a confirmed dialog for this attempt's URL. -/
theorem confirmation_requires_reflection_and_dialog
    (env : AttemptEnv) (st : ScanState) (p : Str) (bm : Bool) (res : ResultEntry)
    (hres : res ∈ (test_payload env st p bm).1.results)
    (hnew : res ∉ st.results) :
    ∃ resp, env.response = some resp ∧
      payload_reflected p resp.text = true ∧
      ∃ d, env.oracle (pyReplace env.target_url HERE p) = some d ∧
        d.confirmed = true ∧ res.confirmed = true ∧
        res.url = pyReplace env.target_url HERE p ∧ res.payload = p := by
  by_cases hs : env.stopped = true
  · simp [test_payload, hs] at hres
    exact absurd hres hnew
  cases hr : env.response with
  | none =>
    simp [test_payload, hs, hr] at hres
    exact absurd hres hnew
  | some resp =>
    by_cases hd : normalize_redirect_depth resp = true
    case neg =>
      simp [test_payload, hs, hr, hd] at hres
      exact absurd hres hnew
    by_cases hb : resp.status_code ∈ BLOCKED_STATUSES
    · simp [test_payload, hs, hr, hd, hb] at hres
      exact absurd hres hnew
    by_cases hrefl : payload_reflected p resp.text = true
    case neg =>
      simp [test_payload, hs, hr, hd, hb, hrefl] at hres
      exact absurd hres hnew
    cases ho : env.oracle (pyReplace env.target_url HERE p) with
    | none =>
      simp [test_payload, hs, hr, hd, hb, hrefl, ho] at hres
      exact absurd hres hnew
    | some dialog =>
      by_cases hc : dialog.confirmed = true
      case neg =>
        simp [test_payload, hs, hr, hd, hb, hrefl, ho, hc] at hres
        exact absurd hres hnew
      simp [test_payload, hs, hr, hd, hb, hrefl, ho, hc] at hres
      rcases hres with hold | hnewres
      · exact absurd hold hnew
      · subst hnewres
        exact ⟨resp, rfl, hrefl, dialog, rfl, hc, rfl, rfl, rfl⟩

/-- Concrete instance for `confirmation_requires_reflection_and_dialog`:
    an attempt that does confirm. -/
def envConfirm : AttemptEnv :=
  { target_url := str "http://t/?q=HERE",
    response := some ⟨200, [], str "<<http://t/?q=x>>x<<", 0⟩,
    oracle := fun _ => some ⟨true, str "alert", str "1"⟩,
    now := str "2026-01-01T00:00:00Z",
    stopped := false }

theorem confirmation_requires_reflection_and_dialog_witness :
    ∃ resp, envConfirm.response = some resp ∧
      payload_reflected (str "x") resp.text = true ∧
      ∃ d, envConfirm.oracle (pyReplace envConfirm.target_url HERE (str "x")) = some d ∧
        d.confirmed = true ∧
        (⟨str "http://t/?q=x", str "x", str "alert", str "1",
          str "2026-01-01T00:00:00Z", true⟩ : ResultEntry).confirmed = true ∧
        (⟨str "http://t/?q=x", str "x", str "alert", str "1",
          str "2026-01-01T00:00:00Z", true⟩ : ResultEntry).url =
          pyReplace envConfirm.target_url HERE (str "x") ∧
        (⟨str "http://t/?q=x", str "x", str "alert", str "1",
          str "2026-01-01T00:00:00Z", true⟩ : ResultEntry).payload = str "x" :=
  confirmation_requires_reflection_and_dialog envConfirm ⟨[], [], []⟩ (str "x") false
    ⟨str "http://t/?q=x", str "x", str "alert", str "1",
     str "2026-01-01T00:00:00Z", true⟩
    (by decide) (by decide)

/-- Every classification event in an attempt trace is preceded by the append
    of this attempt's ResponseRecord. -/
theorem classification_preceded_by_record (env : AttemptEnv) (p : Str) (bm : Bool)
    (l1 : List ScanEvent) (e : ScanEvent) (l2 : List ScanEvent)
    (h : attempt_trace env p bm = l1 ++ e :: l2)
    (hclass : isClassification e = true) :
    ∃ r, ScanEvent.appendRecord r ∈ l1 ∧ r.payload = p := by
  by_cases hs : env.stopped = true
  · simp [attempt_trace, hs] at h
  cases hr : env.response with
  | none => simp [attempt_trace, hs, hr] at h
  | some resp =>
    by_cases hd : normalize_redirect_depth resp = true
    case neg => simp [attempt_trace, hs, hr, hd] at h
    simp only [attempt_trace, hs, hr, hd, Bool.false_eq_true, if_false, if_neg,
      Bool.not_eq_true, not_false_iff, ite_true, ite_false, if_pos, not_true] at h
    cases l1 with
    | nil =>
      simp only [List.nil_append] at h
      have he := (List.cons.injEq _ _ _ _).mp h
      rw [← he.1] at hclass
      simp [isClassification] at hclass
    | cons a l1x =>
      simp only [List.cons_append] at h
      have he := (List.cons.injEq _ _ _ _).mp h
      refine ⟨⟨p, pyReplace env.target_url HERE p, resp.status_code, resp.headers,
        resp.text, bm⟩, ?_, rfl⟩
      rw [he.1]
      exact List.mem_cons_self _ _

/-- The state-level consequence: a payload found in the blocked set after an
    attempt was either already there, or a record with its payload is in the
    response log of the post-state. -/
theorem blocked_payload_has_record (env : AttemptEnv) (st : ScanState) (p : Str)
    (bm : Bool) (q : Str)
    (hq : q ∈ (test_payload env st p bm).1.blocked_payloads) :
    q ∈ st.blocked_payloads ∨
      ∃ rec ∈ (test_payload env st p bm).1.response_log, rec.payload = q := by
  by_cases hs : env.stopped = true
  · simp [test_payload, hs] at hq
    exact Or.inl hq
  cases hr : env.response with
  | none =>
    simp [test_payload, hs, hr] at hq
    exact Or.inl hq
  | some resp =>
    by_cases hd : normalize_redirect_depth resp = true
    case neg =>
      simp [test_payload, hs, hr, hd] at hq
      exact Or.inl hq
    by_cases hb : resp.status_code ∈ BLOCKED_STATUSES
    · have hblocked : (test_payload env st p bm).1.blocked_payloads =
          insertBlocked st.blocked_payloads p := by
        simp [test_payload, hs, hr, hd, hb]
      have hlog : (test_payload env st p bm).1.response_log =
          st.response_log ++ [⟨p, pyReplace env.target_url HERE p, resp.status_code,
            resp.headers, resp.text, bm⟩] := by
        simp [test_payload, hs, hr, hd, hb]
      rw [hblocked] at hq
      unfold insertBlocked at hq
      by_cases hmem : p ∈ st.blocked_payloads
      · rw [if_pos hmem] at hq
        exact Or.inl hq
      · rw [if_neg hmem] at hq
        rcases List.mem_append.mp hq with hq1 | hq2
        · exact Or.inl hq1
        · rw [List.mem_singleton] at hq2
          subst hq2
          right
          refine ⟨⟨q, pyReplace env.target_url HERE q, resp.status_code,
            resp.headers, resp.text, bm⟩, ?_, rfl⟩
          rw [hlog]
          simp
    by_cases hrefl : payload_reflected p resp.text = true
    case neg =>
      simp [test_payload, hs, hr, hd, hb, hrefl] at hq
      exact Or.inl hq
    cases ho : env.oracle (pyReplace env.target_url HERE p) with
    | none =>
      simp [test_payload, hs, hr, hd, hb, hrefl, ho] at hq
      exact Or.inl hq
    | some dialog =>
      by_cases hc : dialog.confirmed = true
      · simp [test_payload, hs, hr, hd, hb, hrefl, ho, hc] at hq
        exact Or.inl hq
      · simp [test_payload, hs, hr, hd, hb, hrefl, ho, hc] at hq
        exact Or.inl hq

/-- C8: in every attempt, the ResponseRecord is appended before the attempt
    is classified (blocked-status classification or reflection test) — no
    classification event occurs in a trace without an earlier record append —
    and consequently any payload present in the blocked set after an attempt
    either predates the attempt or has a matching record in the log. -/
theorem record_logged_before_classification :
    (∀ env p bm (l1 : List ScanEvent) (e : ScanEvent) (l2 : List ScanEvent),
      attempt_trace env p bm = l1 ++ e :: l2 → isClassification e = true →
        ∃ r, ScanEvent.appendRecord r ∈ l1 ∧ r.payload = p) ∧
    (∀ env st p bm q, q ∈ (test_payload env st p bm).1.blocked_payloads →
      q ∈ st.blocked_payloads ∨
        ∃ rec ∈ (test_payload env st p bm).1.response_log, rec.payload = q) :=
  ⟨fun env p bm l1 e l2 h hc =>
      classification_preceded_by_record env p bm l1 e l2 h hc,
   fun env st p bm q hq => blocked_payload_has_record env st p bm q hq⟩

/-- Concrete instance for `record_logged_before_classification`: a blocked
    attempt whose trace is `[appendRecord, classifyBlocked]`. -/
def envBlocked : AttemptEnv :=
  { target_url := str "http://t/?q=HERE",
    response := some ⟨403, [], str "denied", 0⟩,
    oracle := fun _ => none,
    now := str "2026-01-01T00:00:00Z",
    stopped := false }

def recBlocked : ResponseRecord :=
  ⟨str "x", str "http://t/?q=x", 403, [], str "denied", false⟩

theorem record_logged_before_classification_witness :
    (∃ r, ScanEvent.appendRecord r ∈ [ScanEvent.appendRecord recBlocked] ∧
      r.payload = str "x") ∧
    (str "x" ∈ (⟨[], [], []⟩ : ScanState).blocked_payloads ∨
      ∃ rec ∈ (test_payload envBlocked ⟨[], [], []⟩ (str "x") false).1.response_log,
        rec.payload = str "x") :=
  ⟨record_logged_before_classification.1 envBlocked (str "x") false
      [ScanEvent.appendRecord recBlocked] (ScanEvent.classifyBlocked (str "x")) []
      (by decide) rfl,
   record_logged_before_classification.2 envBlocked ⟨[], [], []⟩ (str "x") false
      (str "x") (by decide)⟩

/-! ## Claims C6, C10, C7 — the mutation generator -/

/-- Applying `pyReplace` with a replacement of the same length as the pattern
    preserves the subject's length. -/
theorem replaceFuel_length (pat rep : Str) (hlen : rep.length = pat.length) :
    ∀ (fuel : Nat) (s : Str), (replaceFuel pat rep fuel s).length = s.length := by
  intro fuel
  induction fuel with
  | zero => intro s; cases s <;> rfl
  | succ fuel ih =>
    intro s
    cases s with
    | nil => rfl
    | cons c t =>
      rw [replaceFuel]
      by_cases hp : (!pat.isEmpty && pat.isPrefixOf (c :: t)) = true
      · rw [if_pos hp]
        have hpre : pat <+: c :: t :=
          List.isPrefixOf_iff_prefix.mp (Bool.and_elim_right hp)
        have hple : pat.length ≤ (c :: t).length := hpre.length_le
        rw [List.length_append, ih, List.length_drop]
        simp only [List.length_cons] at hple ⊢
        omega
      · rw [if_neg hp]
        simp only [List.length_cons, ih]

theorem pyReplace_length (s pat rep : Str) (hlen : rep.length = pat.length) :
    (pyReplace s pat rep).length = s.length :=
  replaceFuel_length pat rep hlen s.length s

/-- The original payload always heads `_case_mutation`'s output. -/
theorem mem_case_mutation_self (p : Str) : p ∈ case_mutation p := by
  unfold case_mutation
  split <;> simp

/-- Membership in the generated corpus, for any shuffle that permutes. -/
theorem mem_generate_iff (lib : List Str) (shuffle : List Str → List Str)
    (hs : ∀ l, List.Perm (shuffle l) l) (p x : Str) :
    x ∈ generate_bypass_payloads lib shuffle p ↔ x ∈ bypass_variants lib p :=
  (hs (bypass_variants lib p)).mem_iff

/-- C6: with the external corpus unchanged, two calls of
    `generate_bypass_payloads` (each with its own shuffle, i.e. its own RNG
    draw) produce the same set of variants, every variant is a non-empty
    string shorter than 2500 characters, and the output has no duplicates. -/
theorem generate_bypass_payloads_set_stable (lib : List Str)
    (s1 s2 : List Str → List Str) (p : Str)
    (h1 : ∀ l, List.Perm (s1 l) l) (h2 : ∀ l, List.Perm (s2 l) l) :
    (∀ x, x ∈ generate_bypass_payloads lib s1 p ↔
      x ∈ generate_bypass_payloads lib s2 p) ∧
    (∀ x ∈ generate_bypass_payloads lib s1 p, x ≠ [] ∧ x.length < 2500) ∧
    (generate_bypass_payloads lib s1 p).Nodup := by
  refine ⟨?_, ?_, ?_⟩
  · intro x
    rw [mem_generate_iff lib s1 h1, mem_generate_iff lib s2 h2]
  · intro x hx
    rw [mem_generate_iff lib s1 h1] at hx
    unfold bypass_variants at hx
    rw [List.mem_dedup] at hx
    exact of_decide_eq_true (List.mem_filter.mp hx).2
  · exact ((h1 (bypass_variants lib p)).nodup_iff).mpr (List.nodup_dedup _)

theorem generate_bypass_payloads_set_stable_witness :
    (∀ x, x ∈ generate_bypass_payloads [] id (str "<script>") ↔
      x ∈ generate_bypass_payloads [] id (str "<script>")) ∧
    (∀ x ∈ generate_bypass_payloads [] id (str "<script>"),
      x ≠ [] ∧ x.length < 2500) ∧
    (generate_bypass_payloads [] id (str "<script>")).Nodup :=
  generate_bypass_payloads_set_stable [] id id (str "<script>")
    (fun l => List.Perm.refl l) (fun l => List.Perm.refl l)

/-- C10: any non-empty payload shorter than 2500 characters appears verbatim
    in its own bypass corpus (the case-mutation family seeds its output with
    the unmodified payload), so the bypass phase re-attempts each blocked
    payload as-is. -/
theorem generate_bypass_payloads_contains_original (lib : List Str)
    (shuffle : List Str → List Str) (p : Str) (hs : ∀ l, List.Perm (shuffle l) l)
    (hne : p ≠ []) (hlen : p.length < 2500) :
    p ∈ generate_bypass_payloads lib shuffle p := by
  rw [mem_generate_iff lib shuffle hs]
  unfold bypass_variants
  rw [List.mem_dedup]
  apply List.mem_filter.mpr
  refine ⟨?_, decide_eq_true ⟨hne, hlen⟩⟩
  exact List.mem_flatten.mpr ⟨case_mutation p, by simp, mem_case_mutation_self p⟩

theorem generate_bypass_payloads_contains_original_witness :
    str "x" ∈ generate_bypass_payloads [] id (str "x") :=
  generate_bypass_payloads_contains_original [] id (str "x")
    (fun l => List.Perm.refl l) (by decide) (by decide)

/-- C7 counterexample: the payload `<SCRIPT>x` contains the token `script`
    case-insensitively, so the claim promises the three alternate-casing
    rewrites (e.g. `<Script>x`) in the corpus; but `str.replace` only matches
    the lowercase spelling, so the case-mutation family emits the payload
    unchanged four times and no alternate-casing rewrite is generated.  (The
    external corpus is empty here: the repository carries no
    `data/bypass_payloads.txt`, so `_load_bypass_library()` returns `[]`.) -/
theorem case_mutation_counterexample :
    strContains (pyLower (str "<SCRIPT>x")) (str "script") = true ∧
    case_mutation (str "<SCRIPT>x") =
      [str "<SCRIPT>x", str "<SCRIPT>x", str "<SCRIPT>x", str "<SCRIPT>x"] ∧
    str "<Script>x" ∉ generate_bypass_payloads [] id (str "<SCRIPT>x") :=
  ⟨by decide, by decide, by decide⟩

/-- C7 (amended): for every payload containing the lowercase token `script`
    and shorter than 2500 characters, the corpus includes the three rewrites
    obtained by replacing the lowercase occurrences of `script` with
    `Script`, `sCrIpT` and `SCRipt`; the replacement is case-sensitive, so
    payloads carrying the token only in other casings get no alternate-casing
    variant (see the counterexample), and payloads of length ≥ 2500 are
    removed by the length filter. -/
theorem case_mutation_rewrites_present (lib : List Str)
    (shuffle : List Str → List Str) (p : Str) (hs : ∀ l, List.Perm (shuffle l) l)
    (h : strContains p (str "script") = true) (hlen : p.length < 2500) :
    pyReplace p (str "script") (str "Script") ∈
      generate_bypass_payloads lib shuffle p ∧
    pyReplace p (str "script") (str "sCrIpT") ∈
      generate_bypass_payloads lib shuffle p ∧
    pyReplace p (str "script") (str "SCRipt") ∈
      generate_bypass_payloads lib shuffle p := by
  have hlow : strContains (pyLower p) (str "script") = true := by
    rw [strContains_iff] at h ⊢
    have hmap := h.map Char.toLower
    simpa [pyLower] using hmap
  have hplen : 6 ≤ p.length := by
    rw [strContains_iff] at h
    have := h.length_le
    simpa using this
  have hmem : ∀ rep : Str, rep.length = 6 →
      pyReplace p (str "script") rep ∈ case_mutation p →
      pyReplace p (str "script") rep ∈ generate_bypass_payloads lib shuffle p := by
    intro rep hrep hcase
    have hlenr : (pyReplace p (str "script") rep).length = p.length :=
      pyReplace_length p (str "script") rep (by simp [hrep, str])
    rw [mem_generate_iff lib shuffle hs]
    unfold bypass_variants
    rw [List.mem_dedup]
    apply List.mem_filter.mpr
    constructor
    · exact List.mem_flatten.mpr ⟨case_mutation p, by simp, hcase⟩
    · apply decide_eq_true
      constructor
      · intro hnil
        rw [hnil] at hlenr
        simp at hlenr
        omega
      · omega
  have hcase : ∀ rep : Str,
      (pyReplace p (str "script") rep = pyReplace p (str "script") (str "Script") ∨
       pyReplace p (str "script") rep = pyReplace p (str "script") (str "sCrIpT") ∨
       pyReplace p (str "script") rep = pyReplace p (str "script") (str "SCRipt")) →
      pyReplace p (str "script") rep ∈ case_mutation p := by
    intro rep hd
    unfold case_mutation
    rw [if_pos hlow]
    simp only [List.append_eq, List.mem_append, List.mem_cons, List.mem_singleton,
      List.not_mem_nil, or_false]
    tauto
  exact ⟨hmem (str "Script") rfl (hcase _ (Or.inl rfl)),
         hmem (str "sCrIpT") rfl (hcase _ (Or.inr (Or.inl rfl))),
         hmem (str "SCRipt") rfl (hcase _ (Or.inr (Or.inr rfl)))⟩

theorem case_mutation_rewrites_present_witness :
    pyReplace (str "<script>") (str "script") (str "Script") ∈
      generate_bypass_payloads [] id (str "<script>") ∧
    pyReplace (str "<script>") (str "script") (str "sCrIpT") ∈
      generate_bypass_payloads [] id (str "<script>") ∧
    pyReplace (str "<script>") (str "script") (str "SCRipt") ∈
      generate_bypass_payloads [] id (str "<script>") :=
  case_mutation_rewrites_present [] id (str "<script>")
    (fun l => List.Perm.refl l) (by decide) (by decide)

/-! ## Claim C5 — the serial bypass loop -/

/-- The attempts counter equals the number of pipeline invocations made. -/
theorem tryVariants_attempts_eq_calls (env : BypassEnv σ) :
    ∀ (cands : List Str) (s : σ),
      (tryVariants env s cands).attempts = (tryVariants env s cands).calls.length := by
  intro cands
  induction cands with
  | nil => intro s; rfl
  | cons c rest ih =>
    intro s
    by_cases hc : isConfirmedResult (env.test s c).2 = true
    · simp [tryVariants, hc]
    · simp [tryVariants, hc, ih]

/-- The inner loop's outcome, when present, is a confirmed result. -/
theorem tryVariants_outcome_confirmed (env : BypassEnv σ) :
    ∀ (cands : List Str) (s : σ) (r : ResultEntry),
      (tryVariants env s cands).outcome = some r → r.confirmed = true := by
  intro cands
  induction cands with
  | nil => intro s r h; simp [tryVariants] at h
  | cons c rest ih =>
    intro s r h
    by_cases hc : isConfirmedResult (env.test s c).2 = true
    · simp [tryVariants, hc] at h
      rw [h] at hc
      simpa [isConfirmedResult] using hc
    · simp [tryVariants, hc] at h
      exact ih (env.test s c).1 r h

/-- Serial early-stop characterization of the inner loop: it runs a prefix of
    the corpus, stopping right after the first confirmed invocation (or
    exhausting the corpus when none confirms), with the state threaded
    through exactly those invocations. -/
theorem tryVariants_serial (env : BypassEnv σ) :
    ∀ (cands : List Str) (s : σ),
      ∃ k, k ≤ cands.length ∧
        (tryVariants env s cands).attempts = k ∧
        (tryVariants env s cands).calls = cands.take k ∧
        (tryVariants env s cands).state = replay env s (cands.take k) ∧
        ((tryVariants env s cands).outcome = none →
          k = cands.length ∧
          ∀ j (hj : j < cands.length),
            isConfirmedResult
              (env.test (replay env s (cands.take j)) (cands.get ⟨j, hj⟩)).2 = false) ∧
        (∀ r, (tryVariants env s cands).outcome = some r →
          1 ≤ k ∧
          ∃ hk : k - 1 < cands.length,
            (env.test (replay env s (cands.take (k - 1)))
              (cands.get ⟨k - 1, hk⟩)).2 = some r ∧
            r.confirmed = true ∧
            ∀ j (hj : j < cands.length), j < k - 1 →
              isConfirmedResult
                (env.test (replay env s (cands.take j)) (cands.get ⟨j, hj⟩)).2 = false) := by
  intro cands
  induction cands with
  | nil =>
    intro s
    refine ⟨0, Nat.le_refl 0, rfl, rfl, rfl, ?_, ?_⟩
    · intro _
      exact ⟨rfl, fun j hj => absurd hj (Nat.not_lt_zero j)⟩
    · intro r h
      simp [tryVariants] at h
  | cons c rest ih =>
    intro s
    by_cases hc : isConfirmedResult (env.test s c).2 = true
    · refine ⟨1, Nat.succ_le_succ (Nat.zero_le _), ?_, ?_, ?_, ?_, ?_⟩
      · simp [tryVariants, hc]
      · simp [tryVariants, hc]
      · simp [tryVariants, hc, replay]
      · intro h
        exfalso
        simp [tryVariants, hc] at h
        rw [h] at hc
        simp [isConfirmedResult] at hc
      · intro r h
        simp [tryVariants, hc] at h
        refine ⟨Nat.le_refl 1, by simp, ?_, ?_, ?_⟩
        · simpa [replay] using h
        · rw [h] at hc
          simpa [isConfirmedResult] using hc
        · intro j hj hjlt
          omega
    · obtain ⟨k0, hk0le, hatt, hcalls, hstate, hnone, hsome⟩ :=
        ih (env.test s c).1
      have hcf : isConfirmedResult (env.test s c).2 = false := by
        cases hval : isConfirmedResult (env.test s c).2
        · rfl
        · exact absurd hval hc
      refine ⟨k0 + 1, by simpa using Nat.succ_le_succ hk0le, ?_, ?_, ?_, ?_, ?_⟩
      · simp [tryVariants, hc, hatt]
      · simp [tryVariants, hc, hcalls]
      · simp [tryVariants, hc, hstate, replay]
      · intro h
        have hno : (tryVariants env (env.test s c).1 rest).outcome = none := by
          simpa [tryVariants, hc] using h
        obtain ⟨hkeq, hall⟩ := hnone hno
        refine ⟨by simp [hkeq], ?_⟩
        intro j hj
        cases j with
        | zero =>
          simpa [replay] using hcf
        | succ j0 =>
          have hj0 : j0 < rest.length := by simpa using hj
          simpa [replay] using hall j0 hj0
      · intro r h
        have hsr : (tryVariants env (env.test s c).1 rest).outcome = some r := by
          simpa [tryVariants, hc] using h
        obtain ⟨hk1, hkk, htest, hconf, hprev⟩ := hsome r hsr
        obtain ⟨k1, rfl⟩ : ∃ k1, k0 = k1 + 1 := ⟨k0 - 1, by omega⟩
        simp only [Nat.add_sub_cancel] at hkk htest hprev ⊢
        refine ⟨by omega, by simpa using Nat.succ_lt_succ hkk, ?_, hconf, ?_⟩
        · simpa [replay] using htest
        · intro j hj hjlt
          cases j with
          | zero => simpa [replay] using hcf
          | succ j0 =>
            have hj0 : j0 < rest.length := by simpa using hj
            have hj0lt : j0 < k1 := by omega
            simpa [replay] using hprev j0 hj0 hj0lt

/-- The run-wide counters of `run_bypass` agree with the spec: base-payload
    count, total variants, executed attempts, confirmation count; and
    everything collected is a confirmed result. -/
theorem run_bypass_stats (env : BypassEnv σ) :
    ∀ (blocked_list : List Str) (s : σ),
      (run_bypass env s blocked_list).stats.blocked_payloads =
        blocked_list.length ∧
      (run_bypass env s blocked_list).stats.total_variants_generated =
        (blocked_list.map fun p => (env.gen p).length).sum ∧
      (run_bypass env s blocked_list).stats.total_attempts_run =
        (run_bypass env s blocked_list).calls.length ∧
      (run_bypass env s blocked_list).stats.confirmed =
        (run_bypass env s blocked_list).confirmations.length ∧
      (∀ r ∈ (run_bypass env s blocked_list).confirmations, r.confirmed = true) := by
  intro blocked_list
  induction blocked_list with
  | nil =>
    intro s
    refine ⟨rfl, rfl, rfl, rfl, ?_⟩
    intro r h
    simp [run_bypass] at h
  | cons p rest ih =>
    intro s
    obtain ⟨ih1, ih2, ih3, ih4, ih5⟩ := ih (tryVariants env s (env.gen p)).state
    refine ⟨?_, ?_, ?_, ?_, ?_⟩
    · simp [run_bypass, ih1]
    · simp [run_bypass, ih2]
    · simp [run_bypass, ih3, tryVariants_attempts_eq_calls]
    · simp only [run_bypass, List.length_append]
      rw [ih4]
      cases (tryVariants env s (env.gen p)).outcome <;> simp [Option.toList]
    · intro r hr
      simp only [run_bypass, List.mem_append] at hr
      rcases hr with h1 | h2
      · cases ho : (tryVariants env s (env.gen p)).outcome with
        | none => rw [ho] at h1; simp at h1
        | some rr =>
          rw [ho] at h1
          simp at h1
          rw [h1]
          exact tryVariants_outcome_confirmed env (env.gen p) s rr ho
      · exact ih5 r h2

/-- C5: `run_bypass` processes each base payload's corpus serially, stopping
    at the first confirmed result for that base payload (first conjunct set:
    the stats — `blocked_payloads` is the number of bases iterated,
    `total_variants_generated` the sum of corpus sizes, `total_attempts_run`
    the number of pipeline invocations actually executed, `confirmed` the
    number of confirmations collected; second conjunct: the per-base serial
    early-stop behaviour of the inner loop). -/
theorem run_bypass_serial_and_stats (σ : Type) (env : BypassEnv σ) :
    (∀ (s : σ) (blocked_list : List Str),
      (run_bypass env s blocked_list).stats.blocked_payloads =
        blocked_list.length ∧
      (run_bypass env s blocked_list).stats.total_variants_generated =
        (blocked_list.map fun p => (env.gen p).length).sum ∧
      (run_bypass env s blocked_list).stats.total_attempts_run =
        (run_bypass env s blocked_list).calls.length ∧
      (run_bypass env s blocked_list).stats.confirmed =
        (run_bypass env s blocked_list).confirmations.length ∧
      (∀ r ∈ (run_bypass env s blocked_list).confirmations, r.confirmed = true)) ∧
    (∀ (s : σ) (cands : List Str),
      ∃ k, k ≤ cands.length ∧
        (tryVariants env s cands).attempts = k ∧
        (tryVariants env s cands).calls = cands.take k ∧
        (tryVariants env s cands).state = replay env s (cands.take k) ∧
        ((tryVariants env s cands).outcome = none →
          k = cands.length ∧
          ∀ j (hj : j < cands.length),
            isConfirmedResult
              (env.test (replay env s (cands.take j)) (cands.get ⟨j, hj⟩)).2 = false) ∧
        (∀ r, (tryVariants env s cands).outcome = some r →
          1 ≤ k ∧
          ∃ hk : k - 1 < cands.length,
            (env.test (replay env s (cands.take (k - 1)))
              (cands.get ⟨k - 1, hk⟩)).2 = some r ∧
            r.confirmed = true ∧
            ∀ j (hj : j < cands.length), j < k - 1 →
              isConfirmedResult
                (env.test (replay env s (cands.take j)) (cands.get ⟨j, hj⟩)).2 = false)) :=
  ⟨fun s blocked_list => run_bypass_stats env blocked_list s,
   fun s cands => tryVariants_serial env cands s⟩

/-- Concrete instance for `run_bypass_serial_and_stats`: one blocked base
    payload with a three-variant corpus whose second variant confirms; the
    loop runs 2 of the 3 variants and the stats come out as
    `⟨1 base, 3 variants, 2 attempts, 1 confirmation⟩`. -/
def envBypassDemo : BypassEnv Nat :=
  { gen := fun _ => [str "a", str "ok", str "b"],
    test := fun n c =>
      (n + 1,
       if c = str "ok" then
         some ⟨str "u", str "ok", str "alert", str "1", str "t", true⟩
       else none) }

theorem run_bypass_serial_and_stats_witness :
    (run_bypass envBypassDemo 0 [str "x"]).stats.total_attempts_run =
      (run_bypass envBypassDemo 0 [str "x"]).calls.length ∧
    (run_bypass envBypassDemo 0 [str "x"]).stats = ⟨1, 3, 2, 1⟩ ∧
    (run_bypass envBypassDemo 0 [str "x"]).calls = [str "a", str "ok"] :=
  ⟨((run_bypass_serial_and_stats Nat envBypassDemo).1 0 [str "x"]).2.2.1,
   by decide, by decide⟩

/-! ## Claim C9 — JSON round trip -/

theorem hexVal_hexDigitL (k : Nat) (hk : k < 16) : hexVal (hexDigitL k) = some k := by
  interval_cases k <;> decide

theorem hex4_toHex4 (n : Nat) (h : n < 65536) :
    hex4 (hexDigitL (n / 4096 % 16)) (hexDigitL (n / 256 % 16))
      (hexDigitL (n / 16 % 16)) (hexDigitL (n % 16)) = some n := by
  have h1 := hexVal_hexDigitL (n / 4096 % 16) (Nat.mod_lt _ (by omega))
  have h2 := hexVal_hexDigitL (n / 256 % 16) (Nat.mod_lt _ (by omega))
  have h3 := hexVal_hexDigitL (n / 16 % 16) (Nat.mod_lt _ (by omega))
  have h4 := hexVal_hexDigitL (n % 16) (Nat.mod_lt _ (by omega))
  simp only [hex4, h1, h2, h3, h4, Option.some.injEq]
  omega

/-- Step lemmas for the string-body parser. -/
theorem parseF_quote (f : Nat) (t : Str) :
    parseStringBodyF (f + 1) ('"' :: t) = some ([], t) := by
  rw [parseStringBodyF, if_pos rfl]

theorem parseF_esc (f : Nat) (t : Str) (d : Char) (t2 : Str)
    (h : parseEsc t = some (d, t2)) :
    parseStringBodyF (f + 1) ('\\' :: t) = consFst d (parseStringBodyF f t2) := by
  rw [parseStringBodyF, if_neg (by decide), if_pos rfl, h]

theorem parseF_other (f : Nat) (c : Char) (t : Str)
    (h1 : ¬ c = '"') (h2 : ¬ c = '\\') :
    parseStringBodyF (f + 1) (c :: t) = consFst c (parseStringBodyF f t) := by
  rw [parseStringBodyF, if_neg h1, if_neg h2]

theorem parseEsc_u (t : Str) : parseEsc ('u' :: t) = parseEscU t := by
  rw [parseEsc]
  rw [if_neg (by decide), if_neg (by decide), if_neg (by decide), if_neg (by decide),
    if_neg (by decide), if_neg (by decide), if_neg (by decide), if_neg (by decide),
    if_pos rfl]

theorem parseEscU_hex (n : Nat) (h16 : n < 65536) (t : Str) :
    parseEscU (toHex4 n ++ t) =
      (if 0xd800 ≤ n ∧ n ≤ 0xdbff then parseEscLow n t
       else if 0xdc00 ≤ n ∧ n ≤ 0xdfff then none
       else some (Char.ofNat n, t)) := by
  simp only [toHex4, List.cons_append, List.nil_append]
  rw [parseEscU, hex4_toHex4 _ h16]

theorem parseEscLow_pair (n m : Nat) (hm : m < 65536) (t : Str) :
    parseEscLow n ('\\' :: 'u' :: (toHex4 m ++ t)) =
      (if 0xdc00 ≤ m ∧ m ≤ 0xdfff then
        some (Char.ofNat (0x10000 + (n - 0xd800) * 0x400 + (m - 0xdc00)), t)
       else none) := by
  simp only [toHex4, List.cons_append, List.nil_append]
  rw [parseEscLow, if_pos ⟨rfl, rfl⟩, hex4_toHex4 _ hm]

/-- One escaped character parses back to itself, whatever follows and for
    any fuel left for the remainder. -/
theorem parse_escChar_F (c : Char) (z : Str) (f : Nat) :
    parseStringBodyF (f + 1) (escChar c ++ z) = consFst c (parseStringBodyF f z) := by
  have hv := c.valid
  unfold escChar
  by_cases h1 : c = '"'
  · subst h1
    rw [if_pos rfl]
    simp only [List.cons_append, List.nil_append]
    have hE : parseEsc ('"' :: z) = some ('"', z) := by rw [parseEsc, if_pos rfl]
    rw [parseF_esc f _ _ _ hE]
  rw [if_neg h1]
  by_cases h2 : c = '\\'
  · subst h2
    rw [if_pos rfl]
    simp only [List.cons_append, List.nil_append]
    have hE : parseEsc ('\\' :: z) = some ('\\', z) := by
      rw [parseEsc, if_neg (by decide), if_pos rfl]
    rw [parseF_esc f _ _ _ hE]
  rw [if_neg h2]
  by_cases h3 : c.toNat = 8
  · rw [if_pos h3]
    simp only [List.cons_append, List.nil_append]
    have hE : parseEsc ('b' :: z) = some (Char.ofNat 8, z) := by
      rw [parseEsc, if_neg (by decide), if_neg (by decide), if_neg (by decide), if_pos rfl]
    rw [parseF_esc f _ _ _ hE]
    rw [show Char.ofNat 8 = c by rw [← h3]; exact Char.ofNat_toNat c]
  rw [if_neg h3]
  by_cases h4 : c.toNat = 9
  · rw [if_pos h4]
    simp only [List.cons_append, List.nil_append]
    have hE : parseEsc ('t' :: z) = some (Char.ofNat 9, z) := by
      rw [parseEsc, if_neg (by decide), if_neg (by decide), if_neg (by decide), if_neg (by decide), if_pos rfl]
    rw [parseF_esc f _ _ _ hE]
    rw [show Char.ofNat 9 = c by rw [← h4]; exact Char.ofNat_toNat c]
  rw [if_neg h4]
  by_cases h5 : c.toNat = 10
  · rw [if_pos h5]
    simp only [List.cons_append, List.nil_append]
    have hE : parseEsc ('n' :: z) = some (Char.ofNat 10, z) := by
      rw [parseEsc, if_neg (by decide), if_neg (by decide), if_neg (by decide), if_neg (by decide), if_neg (by decide), if_pos rfl]
    rw [parseF_esc f _ _ _ hE]
    rw [show Char.ofNat 10 = c by rw [← h5]; exact Char.ofNat_toNat c]
  rw [if_neg h5]
  by_cases h6 : c.toNat = 12
  · rw [if_pos h6]
    simp only [List.cons_append, List.nil_append]
    have hE : parseEsc ('f' :: z) = some (Char.ofNat 12, z) := by
      rw [parseEsc, if_neg (by decide), if_neg (by decide), if_neg (by decide), if_neg (by decide), if_neg (by decide), if_neg (by decide), if_pos rfl]
    rw [parseF_esc f _ _ _ hE]
    rw [show Char.ofNat 12 = c by rw [← h6]; exact Char.ofNat_toNat c]
  rw [if_neg h6]
  by_cases h7 : c.toNat = 13
  · rw [if_pos h7]
    simp only [List.cons_append, List.nil_append]
    have hE : parseEsc ('r' :: z) = some (Char.ofNat 13, z) := by
      rw [parseEsc, if_neg (by decide), if_neg (by decide), if_neg (by decide), if_neg (by decide), if_neg (by decide), if_neg (by decide), if_neg (by decide), if_pos rfl]
    rw [parseF_esc f _ _ _ hE]
    rw [show Char.ofNat 13 = c by rw [← h7]; exact Char.ofNat_toNat c]
  rw [if_neg h7]
  by_cases h8 : 0x20 ≤ c.toNat ∧ c.toNat ≤ 0x7e
  · rw [if_pos h8]
    simp only [List.cons_append, List.nil_append]
    rw [parseF_other f c z h1 h2]
  rw [if_neg h8]
  by_cases h9 : c.toNat < 0x10000
  · rw [if_pos h9]
    have hns : ¬ (0xd800 ≤ c.toNat ∧ c.toNat ≤ 0xdbff) := by
      rcases hv with h | h <;> simp [Char.toNat] at h ⊢ <;> omega
    have hns2 : ¬ (0xdc00 ≤ c.toNat ∧ c.toNat ≤ 0xdfff) := by
      rcases hv with h | h <;> simp [Char.toNat] at h ⊢ <;> omega
    have hU : parseEsc ('u' :: (toHex4 c.toNat ++ z)) = some (Char.ofNat c.toNat, z) := by
      rw [parseEsc_u, parseEscU_hex _ h9, if_neg hns, if_neg hns2]
    simp only [List.cons_append, List.append_assoc]
    rw [parseF_esc f _ _ _ hU, Char.ofNat_toNat]
  · rw [if_neg h9]
    have hlt : c.toNat < 0x110000 := by
      rcases hv with h | h <;> simp [Char.toNat] at h ⊢ <;> omega
    have hge : 0x10000 ≤ c.toNat := by omega
    have hhi16 : 0xd800 + (c.toNat - 0x10000) / 0x400 < 65536 := by omega
    have hlo16 : 0xdc00 + (c.toNat - 0x10000) % 0x400 < 65536 := by omega
    have hhir : 0xd800 ≤ 0xd800 + (c.toNat - 0x10000) / 0x400 ∧
        0xd800 + (c.toNat - 0x10000) / 0x400 ≤ 0xdbff := by omega
    have hlor : 0xdc00 ≤ 0xdc00 + (c.toNat - 0x10000) % 0x400 ∧
        0xdc00 + (c.toNat - 0x10000) % 0x400 ≤ 0xdfff := by omega
    have hU : parseEsc ('u' :: (toHex4 (0xd800 + (c.toNat - 0x10000) / 0x400) ++
        ('\\' :: 'u' :: (toHex4 (0xdc00 + (c.toNat - 0x10000) % 0x400) ++ z)))) =
        some (Char.ofNat (0x10000 +
          ((0xd800 + (c.toNat - 0x10000) / 0x400) - 0xd800) * 0x400 +
          ((0xdc00 + (c.toNat - 0x10000) % 0x400) - 0xdc00)), z) := by
      rw [parseEsc_u, parseEscU_hex _ hhi16, if_pos hhir,
        parseEscLow_pair _ _ hlo16, if_pos hlor]
    simp only [List.cons_append, List.append_assoc]
    rw [parseF_esc f _ _ _ hU]
    have harg : 0x10000 +
        ((0xd800 + (c.toNat - 0x10000) / 0x400) - 0xd800) * 0x400 +
        ((0xdc00 + (c.toNat - 0x10000) % 0x400) - 0xdc00) = c.toNat := by omega
    rw [harg, Char.ofNat_toNat]

theorem one_le_escChar_length (c : Char) : 1 ≤ (escChar c).length := by
  unfold escChar
  repeat' split
  all_goals simp [toHex4]

theorem le_length_escBody (s : Str) : s.length ≤ (s.flatMap escChar).length := by
  induction s with
  | nil => simp
  | cons c s ih =>
    simp only [List.flatMap_cons, List.length_append, List.length_cons]
    have := one_le_escChar_length c
    omega

theorem parse_escBody (s : Str) : ∀ (rest : Str) (fuel : Nat), s.length < fuel →
    parseStringBodyF fuel (s.flatMap escChar ++ ('"' :: rest)) = some (s, rest) := by
  induction s with
  | nil =>
    intro rest fuel hf
    obtain ⟨f, rfl⟩ : ∃ f, fuel = f + 1 := ⟨fuel - 1, by omega⟩
    simp only [List.flatMap_nil, List.nil_append]
    exact parseF_quote f rest
  | cons c s ih =>
    intro rest fuel hf
    obtain ⟨f, rfl⟩ : ∃ f, fuel = f + 1 := ⟨fuel - 1, by omega⟩
    simp only [List.flatMap_cons, List.append_assoc]
    rw [parse_escChar_F c _ f]
    rw [ih rest f (by simp at hf; omega)]
    rfl

theorem parseQuoted_dumpStr (s rest : Str) :
    parseQuoted (dumpStr s ++ rest) = some (s, rest) := by
  have hlen : s.length < (s.flatMap escChar ++ ('"' :: rest)).length := by
    rw [List.length_append]
    have := le_length_escBody s
    simp only [List.length_cons]
    omega
  unfold dumpStr
  simp only [List.cons_append, List.append_assoc, List.singleton_append]
  rw [parseQuoted, if_pos rfl, parseStringBody]
  exact parse_escBody s rest _ hlen

theorem parseField_dump (name v z : Str) :
    parseField name ('\n' :: ' ' :: ' ' :: ' ' :: ' ' ::
      (dumpStr name ++ (':' :: ' ' :: (dumpStr v ++ z)))) = some (v, z) := by
  unfold parseField
  rw [show skipWs ('\n' :: ' ' :: ' ' :: ' ' :: ' ' ::
      (dumpStr name ++ (':' :: ' ' :: (dumpStr v ++ z)))) =
      dumpStr name ++ (':' :: ' ' :: (dumpStr v ++ z)) from by
    simp [skipWs, isJsonWs, dumpStr]]
  rw [parseQuoted_dumpStr]
  simp only [Option.bind_eq_bind, Option.some_bind, if_pos rfl]
  rw [show skipWs (':' :: ' ' :: (dumpStr v ++ z)) = ':' :: ' ' :: (dumpStr v ++ z) from by
    simp [skipWs, isJsonWs]]
  rw [show expectChar ':' (':' :: ' ' :: (dumpStr v ++ z)) = some (' ' :: (dumpStr v ++ z)) from by
    simp [expectChar]]
  simp only [Option.some_bind]
  rw [show skipWs (' ' :: (dumpStr v ++ z)) = dumpStr v ++ z from by
    simp [skipWs, isJsonWs, dumpStr]]
  rw [parseQuoted_dumpStr]
  simp

theorem str_open : str "\x7b\n    " = '\x7b' :: '\n' :: ' ' :: ' ' :: ' ' :: ' ' :: [] := rfl
theorem str_colon : str ": " = ':' :: ' ' :: [] := rfl
theorem str_sep : str ",\n    " = ',' :: '\n' :: ' ' :: ' ' :: ' ' :: ' ' :: [] := rfl
theorem str_close : str "\n  \x7d" = '\n' :: ' ' :: ' ' :: '\x7d' :: [] := rfl
theorem str_arr_open : str "[\n  " = '[' :: '\n' :: ' ' :: ' ' :: [] := rfl
theorem str_arr_sep : str ",\n  " = ',' :: '\n' :: ' ' :: ' ' :: [] := rfl
theorem str_arr_close : str "\n]" = '\n' :: ']' :: [] := rfl

theorem skipWs_lbrace (t : Str) : skipWs ('\x7b' :: t) = '\x7b' :: t := by
  simp [skipWs, isJsonWs]
theorem skipWs_comma (t : Str) : skipWs (',' :: t) = ',' :: t := by
  simp [skipWs, isJsonWs]
theorem expect_lbrace (t : Str) : expectChar (Char.ofNat 123) ('\x7b' :: t) = some t := by
  rw [expectChar, if_pos (by decide)]
theorem expect_comma (t : Str) : expectChar ',' (',' :: t) = some t := by
  rw [expectChar, if_pos rfl]
theorem skipWs_rbrace_tail (z : Str) :
    skipWs ('\n' :: ' ' :: ' ' :: '\x7d' :: z) = '\x7d' :: z := by
  simp [skipWs, isJsonWs]
theorem expect_rbrace (t : Str) : expectChar (Char.ofNat 125) ('\x7d' :: t) = some t := by
  rw [expectChar, if_pos (by decide)]

theorem parseRecord_dump (r : ConfirmationOut) (z : Str) :
    parseRecord (dumpRecord r ++ z) = some (r, z) := by
  unfold parseRecord dumpRecord
  simp only [str_open, str_colon, str_sep, str_close, List.cons_append,
    List.append_assoc, List.nil_append]
  rw [skipWs_lbrace, expect_lbrace]
  simp only [Option.bind_eq_bind, Option.some_bind]
  rw [parseField_dump]
  simp only [Option.some_bind]
  rw [skipWs_comma, expect_comma]
  simp only [Option.some_bind]
  rw [parseField_dump]
  simp only [Option.some_bind]
  rw [skipWs_comma, expect_comma]
  simp only [Option.some_bind]
  rw [parseField_dump]
  simp only [Option.some_bind]
  rw [skipWs_comma, expect_comma]
  simp only [Option.some_bind]
  rw [parseField_dump]
  simp only [Option.some_bind]
  rw [skipWs_comma, expect_comma]
  simp only [Option.some_bind]
  rw [parseField_dump]
  simp only [Option.some_bind]
  rw [skipWs_rbrace_tail, expect_rbrace]
  simp only [Option.some_bind]

theorem parseRecord_ws (s : Str) :
    parseRecord ('\n' :: ' ' :: ' ' :: s) = parseRecord s := by
  unfold parseRecord
  rw [show skipWs ('\n' :: ' ' :: ' ' :: s) = skipWs s from by simp [skipWs, isJsonWs]]

theorem parseItems_ws (f : Nat) (s : Str) :
    parseItems f ('\n' :: ' ' :: ' ' :: s) = parseItems f s := by
  cases f with
  | zero => rfl
  | succ f =>
    unfold parseItems
    rw [parseRecord_ws]

theorem parseItems_join : ∀ (rs : List ConfirmationOut) (r : ConfirmationOut) (fuel : Nat),
    rs.length < fuel →
    parseItems fuel (joinRecords (r :: rs) ++ ('\n' :: ']' :: [])) = some (r :: rs, []) := by
  intro rs
  induction rs with
  | nil =>
    intro r fuel hf
    obtain ⟨f, rfl⟩ : ∃ f, fuel = f + 1 := ⟨fuel - 1, by omega⟩
    rw [show joinRecords [r] = dumpRecord r from rfl]
    unfold parseItems
    rw [parseRecord_dump]
    simp only [Option.bind_eq_bind, Option.some_bind]
    rw [show skipWs ('\n' :: ']' :: []) = ']' :: [] from by simp [skipWs, isJsonWs]]
    simp
  | cons r2 rest ih =>
    intro r fuel hf
    obtain ⟨f, rfl⟩ : ∃ f, fuel = f + 1 := ⟨fuel - 1, by omega⟩
    rw [show joinRecords (r :: r2 :: rest) =
        dumpRecord r ++ str ",\n  " ++ joinRecords (r2 :: rest) from rfl]
    simp only [str_arr_sep, List.cons_append, List.append_assoc, List.nil_append]
    unfold parseItems
    rw [parseRecord_dump]
    simp only [Option.bind_eq_bind, Option.some_bind]
    rw [skipWs_comma]
    simp only [if_pos rfl, reduceIte]
    rw [parseItems_ws]
    rw [ih r2 f (by simp at hf; omega)]
    simp only [Option.some_bind]

theorem joinRecords_cons_head (r : ConfirmationOut) (rs : List ConfirmationOut) :
    ∃ t, joinRecords (r :: rs) = dumpRecord r ++ t := by
  cases rs with
  | nil => exact ⟨[], by simp [joinRecords]⟩
  | cons r2 rest =>
    exact ⟨str ",\n  " ++ joinRecords (r2 :: rest), by
      rw [show joinRecords (r :: r2 :: rest) =
        dumpRecord r ++ str ",\n  " ++ joinRecords (r2 :: rest) from rfl]
      simp [List.append_assoc]⟩

theorem one_le_dumpRecord_length (r : ConfirmationOut) : 1 ≤ (dumpRecord r).length := by
  unfold dumpRecord
  simp [str_open, List.length_append]

theorem length_joinRecords (r : ConfirmationOut) :
    ∀ rs, rs.length + 1 ≤ (joinRecords (r :: rs)).length := by
  intro rs
  induction rs generalizing r with
  | nil =>
    simpa [joinRecords] using one_le_dumpRecord_length r
  | cons r2 rest ih =>
    rw [show joinRecords (r :: r2 :: rest) =
      dumpRecord r ++ str ",\n  " ++ joinRecords (r2 :: rest) from rfl]
    have h1 := one_le_dumpRecord_length r
    have h2 := ih r2
    simp only [List.length_append, List.length_cons]
    omega

/-- C9: writing any list of confirmation records through the structured
    (`.json`) sink and parsing the written text back as JSON yields records
    equal field-by-field to the originals. -/
theorem save_results_json_roundtrip (results : List ConfirmationOut) :
    parseResults (save_results_json results) = some results := by
  cases results with
  | nil => rfl
  | cons r rs =>
    obtain ⟨jt, hjoin⟩ := joinRecords_cons_head r rs
    unfold parseResults
    conv_lhs =>
      rw [show save_results_json (r :: rs) =
        str "[\n  " ++ joinRecords (r :: rs) ++ str "\n]" from by
          unfold save_results_json; rw [if_neg (by simp)]]
    simp only [str_arr_open, str_arr_close, List.cons_append, List.append_assoc,
      List.nil_append]
    rw [show skipWs ('[' :: '\n' :: ' ' :: ' ' ::
        (joinRecords (r :: rs) ++ ('\n' :: ']' :: []))) =
        '[' :: '\n' :: ' ' :: ' ' :: (joinRecords (r :: rs) ++ ('\n' :: ']' :: []))
      from by simp [skipWs, isJsonWs]]
    rw [show expectChar '[' ('[' :: '\n' :: ' ' :: ' ' ::
        (joinRecords (r :: rs) ++ ('\n' :: ']' :: []))) =
        some ('\n' :: ' ' :: ' ' :: (joinRecords (r :: rs) ++ ('\n' :: ']' :: [])))
      from by rw [expectChar, if_pos rfl]]
    simp only [Option.bind_eq_bind, Option.some_bind]
    have hskip : skipWs ('\n' :: ' ' :: ' ' ::
        (joinRecords (r :: rs) ++ ('\n' :: ']' :: []))) =
        joinRecords (r :: rs) ++ ('\n' :: ']' :: []) := by
      rw [hjoin]
      obtain ⟨dt, hd⟩ : ∃ dt, dumpRecord r = '\x7b' :: dt := by
        unfold dumpRecord
        simp only [str_open, List.cons_append, List.append_assoc]
        exact ⟨_, rfl⟩
      rw [hd]
      simp [skipWs, isJsonWs]
    rw [hskip]
    obtain ⟨dt, hd⟩ : ∃ dt, dumpRecord r = '\x7b' :: dt := by
      unfold dumpRecord
      simp only [str_open, List.cons_append, List.append_assoc]
      exact ⟨_, rfl⟩
    have hfull : joinRecords (r :: rs) ++ ('\n' :: ']' :: []) =
        '\x7b' :: (dt ++ jt ++ ('\n' :: ']' :: [])) := by
      rw [hjoin, hd]
      simp [List.append_assoc]
    rw [hfull]
    simp only [reduceIte]
    rw [if_neg (by decide)]
    rw [← hfull]
    rw [parseItems_join rs r _ (by
      have h := length_joinRecords r rs
      simp only [List.length_cons, List.length_append]
      omega)]
    simp only [Option.some_bind]
    simp [skipWs]

end TheLastTry
